import Mathlib

/-!
Shallow embedding of the pygbx low-level byte layer:

* `src/pygbx/bytereader.py` — the byte cursor (`ByteReaderBase`), its single
  checkpoint slot (`PositionCheckpoint`), the string reads/writes, and the
  GBX lookback-string decoder (`ByteReader.read_string_lookback`);
* `src/pygbx/lzo.py` — the `LZO` class: a Python wrapper around the C
  routine `lzo1x_decompress_safe`, whose full C source is included at the
  bottom of that file and is embedded here as a state machine.

Conventions of the embedding:

* a byte is a `Nat` (< 256 in practice), a buffer is a `List Nat`;
* Python `int` values that can go negative (cursor positions, sizes,
  requested byte counts) are `Int`;
* a Python `str` is a `List Char` (Lean `Char` carries exactly the unicode
  scalar values CPython's strict UTF-8 codec accepts);
* the Python `False` error sentinel used throughout this code base is
  `none`, and a raised exception is a dedicated `Except.error` case.
-/

/-- Normalise one Python slice bound for a sequence of length `len`
(step 1): a negative index counts from the end, and everything is clamped
into `[0, len]`. -/
def sliceIdx (len : Nat) (i : Int) : Nat :=
  if i < 0 then (i + len).toNat else min i.toNat len

/-- Python `data[a:b]` (step 1).  Never fails, returns the (possibly
empty) clamped range. -/
def pySlice (data : List Nat) (a b : Int) : List Nat :=
  (data.take (sliceIdx data.length b)).drop (sliceIdx data.length a)

/-- Python slice assignment `data[a:b] = v` (step 1): the clamped range
`[a', max a' b')` is removed and `v` is inserted in its place.  For
`a' ≥ len` (in particular a position past the end of the buffer) this
appends `v` at the end without creating gap bytes. -/
def pySliceAssign (data : List Nat) (a b : Int) (v : List Nat) : List Nat :=
  let a' := sliceIdx data.length a
  let b' := max a' (sliceIdx data.length b)
  data.take a' ++ v ++ data.drop b'

/-- `PositionCheckpoint` of bytereader.py; both fields start out as Python
`None`, hence the `Option`. -/
structure PositionCheckpoint where
  pos : Option Int
  size : Option Int
deriving DecidableEq, Repr

/-- `PositionCheckpoint.valid` (bytereader.py line 26):
`self.pos is not None and self.size is not None and`
`0 <= self.pos <= self.size and self.size > 0`. -/
def PositionCheckpoint.valid : PositionCheckpoint → Bool
  | ⟨some p, some s⟩ => decide (0 ≤ p ∧ p ≤ s ∧ 0 < s)
  | _ => false

/-- The mutable state of a `ByteReaderBase`: the byte buffer, the cursor
position, the recorded `size` attribute (the instance attribute assigned
in `__init__`, which shadows the method of the same name), and the single
checkpoint slot. -/
structure ByteReaderState where
  data : List Nat
  pos : Int
  size : Int
  cp : PositionCheckpoint
deriving DecidableEq, Repr

/-- `ByteReaderBase.__init__` on an in-memory byte buffer: position 0,
recorded size = buffer length, checkpoint slot `(None, None)`. -/
def freshReader (data : List Nat) : ByteReaderState :=
  { data := data, pos := 0, size := data.length, cp := ⟨none, none⟩ }

/-- `ByteReaderBase.push_position_checkpoint`: records the current
position and invalidates any pending size. -/
def ByteReaderBase.push_position_checkpoint (st : ByteReaderState) : ByteReaderState :=
  { st with cp := ⟨some st.pos, none⟩ }

/-- `ByteReaderBase.pop_position_checkpoint`: computes
`size = pos - checkpoint.pos`.  When no checkpoint was ever opened,
`checkpoint.pos` is Python `None` and `self.pos - None` raises an
unchecked `TypeError`, modelled as `Except.error ()`.  (The negative-size
case merely emits a `logging.warning` and still returns the checkpoint.) -/
def ByteReaderBase.pop_position_checkpoint (st : ByteReaderState) :
    Except Unit (ByteReaderState × PositionCheckpoint) :=
  match st.cp.pos with
  | none => .error ()
  | some p =>
      let cp' : PositionCheckpoint := ⟨some p, some (st.pos - p)⟩
      .ok ({ st with cp := cp' }, cp')

/-- Result of `ByteReaderBase.read` with `format_chars = None` (the raw
read): the returned span, the new state, and whether each of the two
`logging.error` diagnostics of `read` fired (`underRead` is the
"only ... byte(s) were actually read" log, which is the only way this
path reports a short read — the value is returned anyway; `overRead` is
the "were left to be read" log, which fires exactly when more bytes came
back than were requested, i.e. for negative requests). -/
structure ReadRawResult where
  value : List Nat
  st : ByteReaderState
  underRead : Bool
  overRead : Bool
deriving DecidableEq, Repr

/-- `ByteReaderBase.read` with `format_chars = None`.
`__get_bytes` is the slice `data[pos:pos+num_bytes]` (which cannot raise
for integer arguments), the position then advances by the length of that
slice, and for `little_endian = true` the span is returned reversed
(`val[-1::-1]`). -/
def ByteReaderBase.read_raw (st : ByteReaderState) (num_bytes : Int)
    (little_endian : Bool) : ReadRawResult :=
  let val := pySlice st.data st.pos (st.pos + num_bytes)
  { value := if little_endian then val.reverse else val
    st := { st with pos := st.pos + (val.length : Int) }
    underRead := decide ((val.length : Int) < num_bytes)
    overRead := decide (num_bytes < (val.length : Int)) }

/-- `ByteReaderBase.read` with `format_chars = f'{num_bytes}s'`, as used
by `read_string`: `struct.unpack` returns the bytes unchanged (the `s`
format ignores the endianness marker) but raises — hence `False`, i.e.
`none` — unless exactly `num_bytes` bytes were obtained.  The position
has already advanced by the short length in that case. -/
def ByteReaderBase.read_bytes_s (st : ByteReaderState) (num_bytes : Nat) :
    Option (List Nat) × ByteReaderState :=
  let val := pySlice st.data st.pos (st.pos + (num_bytes : Int))
  let st' := { st with pos := st.pos + (val.length : Int) }
  if val.length = num_bytes then (some val, st') else (none, st')

/-- `ByteReaderBase.read` with `format_chars = 'I'` (4-byte unsigned,
`<I` little-endian by default), as used by `read_uint32`: the value is in
`[0, 2^32)`; a short read makes `struct.unpack` raise, giving `False`
(`none`) with the position already advanced by the short length. -/
def ByteReaderBase.read_uint32 (st : ByteReaderState) : Option Nat × ByteReaderState :=
  let val := pySlice st.data st.pos (st.pos + 4)
  let st' := { st with pos := st.pos + (val.length : Int) }
  if val.length = 4 then
    (some (val.getD 0 0 + val.getD 1 0 * 256 + val.getD 2 0 * 65536 +
      val.getD 3 0 * 16777216), st')
  else (none, st')

/-- UTF-8 encoding of one unicode scalar value, as produced by Python
`str.encode('utf-8')`. -/
def utf8EncodeChar (n : Nat) : List Nat :=
  if n < 0x80 then [n]
  else if n < 0x800 then [0xC0 + n / 64, 0x80 + n % 64]
  else if n < 0x10000 then
    [0xE0 + n / 4096, 0x80 + n / 64 % 64, 0x80 + n % 64]
  else
    [0xF0 + n / 262144, 0x80 + n / 4096 % 64, 0x80 + n / 64 % 64, 0x80 + n % 64]

/-- Python `str.encode('utf-8')` over the string's scalar values. -/
def utf8Encode (s : List Char) : List Nat :=
  (s.map (fun c => utf8EncodeChar c.toNat)).flatten

/-- A UTF-8 continuation byte, `0x80..0xBF`. -/
def utf8Cont (b : Nat) : Prop := 0x80 ≤ b ∧ b < 0xC0

instance (b : Nat) : Decidable (utf8Cont b) := by unfold utf8Cont; infer_instance

/-- Scalar value of a two-byte UTF-8 sequence. -/
def utf8Val2 (b0 b1 : Nat) : Nat := (b0 - 0xC0) * 64 + (b1 - 0x80)

/-- Scalar value of a three-byte UTF-8 sequence. -/
def utf8Val3 (b0 b1 b2 : Nat) : Nat := (b0 - 0xE0) * 4096 + (b1 - 0x80) * 64 + (b2 - 0x80)

/-- Scalar value of a four-byte UTF-8 sequence. -/
def utf8Val4 (b0 b1 b2 b3 : Nat) : Nat :=
  (b0 - 0xF0) * 262144 + (b1 - 0x80) * 4096 + (b2 - 0x80) * 64 + (b3 - 0x80)

/-- Well-formedness of the continuation bytes of a three-byte sequence:
the two extra clauses reject overlong forms (lead `E0`) and surrogates
(lead `ED`), exactly as CPython's strict decoder does. -/
def utf8Cond3 (b0 b1 b2 : Nat) : Prop :=
  utf8Cont b1 ∧ utf8Cont b2 ∧ (b0 = 0xE0 → 0xA0 ≤ b1) ∧ (b0 = 0xED → b1 < 0xA0)

instance (b0 b1 b2 : Nat) : Decidable (utf8Cond3 b0 b1 b2) := by
  unfold utf8Cond3; infer_instance

/-- Well-formedness of the continuation bytes of a four-byte sequence:
the two extra clauses reject overlong forms (lead `F0`) and values above
U+10FFFF (lead `F4`). -/
def utf8Cond4 (b0 b1 b2 b3 : Nat) : Prop :=
  utf8Cont b1 ∧ utf8Cont b2 ∧ utf8Cont b3 ∧ (b0 = 0xF0 → 0x90 ≤ b1) ∧ (b0 = 0xF4 → b1 < 0x90)

instance (b0 b1 b2 b3 : Nat) : Decidable (utf8Cond4 b0 b1 b2 b3) := by
  unfold utf8Cond4; infer_instance

/-- Python `bytes.decode('utf-8')` with strict error handling: accepts
exactly well-formed UTF-8 (rejecting stray continuation bytes — lead
bytes `80..C1` also cover overlong two-byte forms —, surrogates, values
above U+10FFFF and truncated sequences), returning `none` for the raised
`UnicodeDecodeError`.  The clauses for lists shorter than four bytes
repeat the applicable prefix of the general clause so that the recursion
stays structural; a multi-byte lead without enough following bytes is a
truncation error. -/
def utf8Decode : List Nat → Option (List Char)
  | [] => some []
  | [b0] =>
    if b0 < 0x80 then (utf8Decode []).map (List.cons (Char.ofNat b0)) else none
  | [b0, b1] =>
    if b0 < 0x80 then (utf8Decode [b1]).map (List.cons (Char.ofNat b0))
    else if b0 < 0xC2 then none
    else if b0 < 0xE0 then
      if utf8Cont b1 then (utf8Decode []).map (List.cons (Char.ofNat (utf8Val2 b0 b1)))
      else none
    else none
  | [b0, b1, b2] =>
    if b0 < 0x80 then (utf8Decode [b1, b2]).map (List.cons (Char.ofNat b0))
    else if b0 < 0xC2 then none
    else if b0 < 0xE0 then
      if utf8Cont b1 then (utf8Decode [b2]).map (List.cons (Char.ofNat (utf8Val2 b0 b1)))
      else none
    else if b0 < 0xF0 then
      if utf8Cond3 b0 b1 b2 then (utf8Decode []).map (List.cons (Char.ofNat (utf8Val3 b0 b1 b2)))
      else none
    else none
  | b0 :: b1 :: b2 :: b3 :: bs =>
    if b0 < 0x80 then (utf8Decode (b1 :: b2 :: b3 :: bs)).map (List.cons (Char.ofNat b0))
    else if b0 < 0xC2 then none
    else if b0 < 0xE0 then
      if utf8Cont b1 then
        (utf8Decode (b2 :: b3 :: bs)).map (List.cons (Char.ofNat (utf8Val2 b0 b1)))
      else none
    else if b0 < 0xF0 then
      if utf8Cond3 b0 b1 b2 then
        (utf8Decode (b3 :: bs)).map (List.cons (Char.ofNat (utf8Val3 b0 b1 b2)))
      else none
    else if b0 < 0xF5 then
      if utf8Cond4 b0 b1 b2 b3 then
        (utf8Decode bs).map (List.cons (Char.ofNat (utf8Val4 b0 b1 b2 b3)))
      else none
    else none

/-- `ByteReaderBase.read_string` with an explicit byte count: reads the
raw span through the `'{n}s'` struct format, decodes it as UTF-8, and for
`little_endian = true` additionally reverses the decoded characters
(`val[-1::-1]` on the string). -/
def ByteReaderBase.read_string (st : ByteReaderState) (num_bytes : Nat)
    (little_endian : Bool) : Option (List Char) × ByteReaderState :=
  match ByteReaderBase.read_bytes_s st num_bytes with
  | (none, st') => (none, st')
  | (some val, st') =>
    match utf8Decode val with
    | none => (none, st')
    | some cs => (some (if little_endian then cs.reverse else cs), st')

/-- `ByteReaderBase.__write_bytes` followed by the bookkeeping of
`ByteReaderBase.write`, for an already-packed byte string (`struct.pack`
of a fixed-width value, or the `'{n}s'` format on raw bytes — both return
their input bytes): the slice assignment `data[pos:pos+L] = packed`
stores the bytes (inserting at the clamped start index, so a position
past the end appends at the end), and — only when the byte count is
truthy — `size` is raised to `pos + L` if that exceeds it and `pos`
advances by `L`. -/
def ByteReaderBase.writePacked (st : ByteReaderState) (packed : List Nat) :
    Nat × ByteReaderState :=
  let L := packed.length
  let data' := pySliceAssign st.data st.pos (st.pos + (L : Int)) packed
  if L ≠ 0 then
    (L, { st with
            data := data'
            size := if st.pos + (L : Int) > st.size then st.pos + (L : Int) else st.size
            pos := st.pos + (L : Int) })
  else (L, { st with data := data' })

/-- `ByteReaderBase.write_uint8`: validates `0 ≤ v ≤ 255` (else logs and
returns `False`), then writes the single packed byte. -/
def ByteReaderBase.write_uint8 (st : ByteReaderState) (v : Int) :
    Option (Nat × ByteReaderState) :=
  if 0 ≤ v ∧ v ≤ 255 then some (ByteReaderBase.writePacked st [v.toNat]) else none

/-- `ByteReaderBase.write_uint16`: validates the range (the code checks
`0 ≤ v ≤ 65536`, one too permissive, faithfully kept), then writes the
two little-endian packed bytes. -/
def ByteReaderBase.write_uint16 (st : ByteReaderState) (v : Int) :
    Option (Nat × ByteReaderState) :=
  if 0 ≤ v ∧ v ≤ 65536 then
    some (ByteReaderBase.writePacked st [v.toNat % 256, v.toNat / 256 % 256])
  else none

/-- `ByteReaderBase.write_uint32`: validates `0 ≤ v ≤ 4294967295`, then
writes the four little-endian packed bytes. -/
def ByteReaderBase.write_uint32 (st : ByteReaderState) (v : Int) :
    Option (Nat × ByteReaderState) :=
  if 0 ≤ v ∧ v ≤ 4294967295 then
    some (ByteReaderBase.writePacked st
      [v.toNat % 256, v.toNat / 256 % 256, v.toNat / 65536 % 256, v.toNat / 16777216 % 256])
  else none

/-- `ByteReaderBase.write_string`: the empty string is a warned no-op
returning 0 bytes written; otherwise the UTF-8 encoding is stored —
reversed first when `little_endian = true` (the code reverses manually
because `struct.pack` ignores endianness for the `s` format). -/
def ByteReaderBase.write_string (st : ByteReaderState) (s : List Char)
    (little_endian : Bool) : Nat × ByteReaderState :=
  if s = [] then (0, st)
  else
    let enc := utf8Encode s
    ByteReaderBase.writePacked st (if little_endian then enc.reverse else enc)

/-- The extra state a `ByteReader` (the GBX variant) carries on top of the
base cursor: the `seen_lookback` flag and the ordered table of previously
stored lookback strings.  A table entry is `Option (List Char)` because a
failed inline read appends the Python `False` sentinel (`none`) to the
table, not only genuine strings. -/
structure LookbackState where
  base : ByteReaderState
  seenLookback : Bool
  storedStrings : List (Option (List Char))
deriving DecidableEq, Repr

/-- `ByteReader.read_string` with `num_bytes = None`: first reads an
unsigned 32-bit length, then reads that many bytes as a big-endian
(unreversed) UTF-8 string.  When the length read fails (`False`), the
subsequent `super().read_string(False, False)` builds the invalid struct
format `'Falses'` over an empty slice and fails as well, leaving the
position where the short length read put it. -/
def ByteReader.read_string_auto (st : ByteReaderState) :
    Option (List Char) × ByteReaderState :=
  match ByteReaderBase.read_uint32 st with
  | (none, st') => (none, st')
  | (some n, st') => ByteReaderBase.read_string st' n false

/-- The static well-known identifier table consulted by
`ByteReader.read_string_lookback` when the two most significant bits of
the reference word are clear. -/
def ByteReader.wellKnownString (n : Nat) : Option (List Char) :=
  if n = 11 then some (String.toList "Valley")
  else if n = 12 then some (String.toList "Canyon")
  else if n = 13 then some (String.toList "Lagoon")
  else if n = 17 then some (String.toList "TMCommon")
  else if n = 202 then some (String.toList "Storm")
  else if n = 299 then some (String.toList "SMCommon")
  else if n = 10003 then some (String.toList "Common")
  else none

/-- `ByteReader.read_string_lookback`.  Notable faithful details:

* on the first invocation a marker word is read and discarded;
* the reference word comes from `read_uint32` (unsigned); on a short read
  the Python value is `False`, and `False == 0` holds, so a failed word
  read takes the inline-introduction branch;
* the inline-introduction branches append whatever `read_string` returned
  to the table — including the `False` sentinel (`none`) on failure;
* the `inp == -1` comparison is Python `int` equality against the
  unsigned value, hence never true; it is kept here (as an always-false
  `Int` comparison) for fidelity;
* a masked index that is out of range degrades to the empty string
  without touching the table. -/
def ByteReader.read_string_lookback (st0 : LookbackState) :
    Option (List Char) × LookbackState :=
  let st1 : LookbackState :=
    if st0.seenLookback then st0
    else { st0 with base := (ByteReaderBase.read_uint32 st0.base).2 }
  let st := { st1 with seenLookback := true }
  match ByteReaderBase.read_uint32 st.base with
  | (none, b') =>
      -- inp = False: `False & 0xc0000000 = 0`, but `False == 0` is true
      let (s, b'') := ByteReader.read_string_auto b'
      (s, { st with base := b'', storedStrings := st.storedStrings ++ [s] })
  | (some inp, b') =>
      if inp &&& 0xc0000000 ≠ 0 ∧ inp &&& 0x3fffffff = 0 then
        let (s, b'') := ByteReader.read_string_auto b'
        (s, { st with base := b'', storedStrings := st.storedStrings ++ [s] })
      else if inp = 0 then
        let (s, b'') := ByteReader.read_string_auto b'
        (s, { st with base := b'', storedStrings := st.storedStrings ++ [s] })
      else if (inp : Int) = -1 then
        -- dead: `read_uint32` yields a value in [0, 2^32), never -1
        (some [], { st with base := b' })
      else if inp &&& 0x3fffffff = inp ∧ (ByteReader.wellKnownString inp).isSome then
        (ByteReader.wellKnownString inp, { st with base := b' })
      else
        let i := inp &&& 0x3fffffff
        if st.storedStrings.length ≤ i - 1 then (some [], { st with base := b' })
        else (st.storedStrings.getD (i - 1) none, { st with base := b' })

/-- One byte of the decompressor's input, `0` when out of range.  The C
routine's `NEED_IP` style bounds checks keep every read that our theorems
exercise in range (an out-of-range C read would be undefined behaviour;
see the comment on `lzoRun` about how those comparisons are modelled). -/
def lzoByte (inp : List Nat) (i : Nat) : Nat := inp.getD i 0

/-- Sequential byte-wise match copy: append `n` bytes read from the
already-written output starting at offset `m`, re-reading bytes written
earlier in the same copy (this is what makes overlapping back-references
work).  The C routine's 4-byte bulk variants are only taken when the
distance is at least 4, where chunked copying coincides with this
sequential byte-wise copy. -/
def lzoCopyMatch (out : List Nat) (m n : Nat) : List Nat :=
  match n with
  | 0 => out
  | k + 1 => lzoCopyMatch (out ++ [out.getD m 0]) (m + 1) k

/-- The zero-continuation extended-count loop shared by the literal-run
and match decoders: starting from accumulated count `t` (the C enters
with `t = 0`), each zero input byte adds 255, and the first non-zero byte
`b` terminates contributing `base + b`; every byte read is guarded by a
`NEED_IP(1)` check whose failure is input overrun (`none` here, return
code -4 at the call sites).  `fuel` only bounds the recursion; callers
pass `inp.length + 1`, which the per-step input consumption can never
exhaust before a genuine overrun. -/
def lzoExtCount (inp : List Nat) (base : Nat) : Nat → Nat → Nat → Option (Nat × Nat)
  | 0, _, _ => none
  | fuel + 1, ip, t =>
    if inp.length - ip < 1 then none
    else if lzoByte inp ip = 0 then lzoExtCount inp base fuel (ip + 1) (t + 255)
    else some (t + base + lzoByte inp ip, ip + 1)

/-- Control points of the C routine `lzo1x_decompress_safe` (lzo.py's
embedded source), after replacing its gotos/flags by explicit phases:

* `outer nfl nm t`: top of the `while (ip < ip_end || needs_first_literal_run)`
  loop, carrying `needs_first_literal_run`, `needs_match` and the pending
  tag `t` (only meaningful when `nm = true`);
* `afterLit`: the point right after the literal-run section (line
  `t = *ip++;` followed by the `t < 16` first-match special case);
* `inner t nmd`: top of the inner `do { ... } while (ip < ip_end)` loop,
  carrying the tag `t` and `needs_match_done`;
* `matchDone`: the trailing-literal tail of the inner loop (from
  `t = ip[-2] & 3;`).

Each phase also carries the current `m_pos` as an offset from the start
of the output (the C pointer may go stale across phases — notably the
31-to-63 tag class never sets it — so it is threaded everywhere). -/
inductive LzoPhase where
  | outer (nfl nm : Bool) (t : Nat) (mPos : Int)
  | afterLit (mPos : Int)
  | inner (t : Nat) (mPos : Int) (nmd : Bool)
  | matchDone (mPos : Int)
deriving DecidableEq, Repr

/-- The main loop of the C routine `lzo1x_decompress_safe`, fuel-bounded.
Returns the C return code paired with the output written so far (whose
length is what the routine stores through `*out_len`).  Code 0 is the
success sentinel path; negative codes are the C error returns (-4 input
overrun, -5 output overrun, -6 lookbehind overrun, -7 input not fully
consumed / stream not terminated, -8 trailing data after the sentinel);
-99 stands for fuel exhaustion and is unreachable for the fuel supplied
by `lzo1x_decompress_safe_c` on terminating runs.  The C pointer-range
comparisons `ip_end - ip` / `op_end - op` are modelled by truncated `Nat`
subtraction; they coincide with the C unsigned comparisons whenever
`ip ≤ ip_end` and `op ≤ op_end`, which every path our theorems exercise
maintains (past the end the C routine would wrap and read out of
bounds). -/
def lzoRun (inp : List Nat) (opEnd : Nat) :
    Nat → Nat → List Nat → LzoPhase → Int × List Nat
  | 0, _, out, _ => (-99, out)
  | fuel + 1, ip, out, .outer nfl nm t mPos =>
    if ip < inp.length ∨ nfl then
      if nm then
        -- needs_match: reset the flag and go straight to the match dispatch
        lzoRun inp opEnd fuel ip out (.inner t mPos false)
      else if nfl then
        -- needs_first_literal_run: skip the literal section once
        lzoRun inp opEnd fuel ip out (.afterLit mPos)
      else
        let t := lzoByte inp ip
        let ip := ip + 1
        if 16 ≤ t then lzoRun inp opEnd fuel ip out (.outer false true t mPos)
        else
          match (if t = 0 then lzoExtCount inp 15 (inp.length + 1) ip 0
                 else some (t, ip)) with
          | none => (-4, out)
          | some (t, ip) =>
            if opEnd - out.length < t + 3 then (-5, out)
            else if inp.length - ip < t + 4 then (-4, out)
            else
              lzoRun inp opEnd fuel (ip + (t + 3))
                (out ++ (inp.drop ip).take (t + 3)) (.afterLit mPos)
    else (-7, out)
  | fuel + 1, ip, out, .afterLit mPos =>
    let t := lzoByte inp ip
    let ip := ip + 1
    if t < 16 then
      -- the match op only legal directly after a literal run
      let mPos : Int := (out.length : Int) - 0x801 - ((t >>> 2 : Nat) : Int) - ((lzoByte inp ip * 4 : Nat) : Int)
      let ip := ip + 1
      if mPos < 0 ∨ (out.length : Int) ≤ mPos then (-6, out)
      else if opEnd - out.length < 3 then (-5, out)
      else lzoRun inp opEnd fuel ip (lzoCopyMatch out mPos.toNat 3) (.inner t (mPos + 2) true)
    else lzoRun inp opEnd fuel ip out (.inner t mPos false)
  | fuel + 1, ip, out, .inner t mPos nmd =>
    if nmd then lzoRun inp opEnd fuel ip out (.matchDone mPos)
    else if 64 ≤ t then
      let mPos : Int := (out.length : Int) - 1 - (((t >>> 2) &&& 7 : Nat) : Int) - ((lzoByte inp ip * 8 : Nat) : Int)
      let ip := ip + 1
      let t := (t >>> 5) - 1
      if mPos < 0 ∨ (out.length : Int) ≤ mPos then (-6, out)
      else if opEnd - out.length < t + 2 then (-5, out)
      else lzoRun inp opEnd fuel ip (lzoCopyMatch out mPos.toNat (t + 2))
        (.matchDone (mPos + (t + 2)))
    else if 32 ≤ t then
      -- NOTE (faithful to the transcription in lzo.py): this class never
      -- assigns m_pos; the two follow bytes are skipped and the stale
      -- m_pos is used by the shared copy block below
      match (if t &&& 31 = 0 then lzoExtCount inp 31 (inp.length + 1) ip 0
             else some (t &&& 31, ip)) with
      | none => (-4, out)
      | some (t, ip) =>
        let ip := ip + 2
        if mPos < 0 ∨ (out.length : Int) ≤ mPos then (-6, out)
        else if opEnd - out.length < t + 2 then (-5, out)
        else lzoRun inp opEnd fuel ip (lzoCopyMatch out mPos.toNat (t + 2))
          (.matchDone (mPos + (t + 2)))
    else if 16 ≤ t then
      let mPos : Int := (out.length : Int) - (((t &&& 8) <<< 11 : Nat) : Int)
      match (if t &&& 7 = 0 then lzoExtCount inp 7 (inp.length + 1) ip 0
             else some (t &&& 7, ip)) with
      | none => (-4, out)
      | some (t, ip) =>
        -- the two follow bytes are read as a little-endian 16-bit value
        let mPos := mPos - (((lzoByte inp ip + lzoByte inp (ip + 1) * 256) >>> 2 : Nat) : Int)
        let ip := ip + 2
        if mPos = (out.length : Int) then
          -- end-of-stream sentinel
          (if ip = inp.length then 0 else if ip < inp.length then -8 else -4, out)
        else
          let mPos := mPos - 0x4000
          if mPos < 0 ∨ (out.length : Int) ≤ mPos then (-6, out)
          else if opEnd - out.length < t + 2 then (-5, out)
          else lzoRun inp opEnd fuel ip (lzoCopyMatch out mPos.toNat (t + 2))
            (.matchDone (mPos + (t + 2)))
    else
      let mPos : Int := (out.length : Int) - 1 - ((t >>> 2 : Nat) : Int) - ((lzoByte inp ip * 4 : Nat) : Int)
      let ip := ip + 1
      if mPos < 0 ∨ (out.length : Int) ≤ mPos then (-6, out)
      else if opEnd - out.length < 2 then (-5, out)
      else lzoRun inp opEnd fuel ip (lzoCopyMatch out mPos.toNat 2) (.matchDone (mPos + 1))
  | fuel + 1, ip, out, .matchDone mPos =>
    let t := lzoByte inp (ip - 2) &&& 3
    if t = 0 then lzoRun inp opEnd fuel ip out (.outer false false 0 mPos)
    else if opEnd - out.length < t then (-5, out)
    else if inp.length - ip < t + 1 then (-4, out)
    else
      let out := out ++ (inp.drop ip).take t
      let ip := ip + t
      let t := lzoByte inp ip
      let ip := ip + 1
      if inp.length ≤ ip then (-7, out)
      else lzoRun inp opEnd fuel ip out (.inner t mPos false)

/-- The C routine `lzo1x_decompress_safe(in, in_len, out, out_len)` whose
source lzo.py embeds and whose compiled form the Python wrapper loads.
Returns the C return code paired with the bytes written to the output
buffer (`*out_len` of them).  The prologue handles a first byte above 17
as an initial literal run: for a count below 4 it copies the bytes inline
and consumes the following byte as the next tag (which the transcribed
main loop then overwrites by a fresh read), for a count of 4 or more it
copies the run and enters the loop with `needs_first_literal_run` set.
The supplied fuel bounds the loop; every iteration chain of the machine
consumes input, so `4 * inp.length + 16` steps are never exhausted before
the routine returns. -/
def lzo1x_decompress_safe_c (inp : List Nat) (outLen : Nat) : Int × List Nat :=
  let fuel := 4 * inp.length + 16
  if 17 < lzoByte inp 0 then
    let t := lzoByte inp 0 - 17
    if t < 4 then
      if outLen < t then (-5, [])
      else if inp.length - 1 < t + 1 then (-4, [])
      else
        let out := (inp.drop 1).take t
        let ip := 1 + t
        -- t = *ip++ ; the value is dead: the loop re-reads a tag byte
        let ip := ip + 1
        if inp.length ≤ ip then (-7, out)
        else lzoRun inp outLen fuel ip out (.outer false false 0 0)
    else
      if outLen < t then (-5, [])
      else if inp.length - 1 < t + 1 then (-4, [])
      else lzoRun inp outLen fuel (1 + t) ((inp.drop 1).take t) (.outer true false 0 0)
  else lzoRun inp outLen fuel 0 [] (.outer false false 0 0)

/-- `LZO._lzo1x_decompress_safe_libs` (the only live code path: the
constructor forces `use_shared_lib = True`): allocates
`bytes(uncompressed_size)` (all zeros), calls the C routine on it through
ctypes and returns that buffer object, discarding the routine's return
code.  The returned buffer therefore holds whatever prefix the routine
wrote followed by the untouched zero padding, and is returned as a value
even when the routine reported an error.  (The ctypes call site passes
`uncompressed_size` by value where the C routine expects the `out_len`
pointer; the call is modelled as if that out-parameter were marshalled
correctly.) -/
def LZO.lzo1x_decompress_safe_libs (data : List Nat) (uncompressed_size : Nat) :
    Option (List Nat) :=
  let r := lzo1x_decompress_safe_c data uncompressed_size
  some (r.2 ++ List.replicate (uncompressed_size - r.2.length) 0)

/-- `LZO.lzo1x_decompress_safe`, the public entry point: with
`use_shared_lib` forced on it always delegates to the library path. -/
def LZO.lzo1x_decompress_safe (data : List Nat) (uncompressed_size : Nat) :
    Option (List Nat) :=
  LZO.lzo1x_decompress_safe_libs data uncompressed_size

/-! ### Helper lemmas -/

theorem List.drop_min_length {α} (l : List α) (k : Nat) :
    l.drop (min k l.length) = l.drop k := by
  rcases le_total k l.length with h | h
  · rw [min_eq_left h]
  · rw [min_eq_right h, List.drop_length, List.drop_eq_nil_of_le h]

/-- When more bytes are requested than remain (at a non-negative
position), the Python slice `data[pos:pos+n]` is the whole remainder of
the buffer. -/
theorem pySlice_all (data : List Nat) (pos n : Int) (h0 : 0 ≤ pos)
    (hn : (data.length : Int) - pos < n) :
    pySlice data pos (pos + n) = data.drop pos.toNat := by
  unfold pySlice sliceIdx
  have h1 : ¬ pos + n < 0 := by omega
  have h2 : ¬ pos < 0 := by omega
  have h3 : min (pos + n).toNat data.length = data.length := by
    have : (data.length : Int) < pos + n := by omega
    omega
  rw [if_neg h1, if_neg h2, h3, List.take_length]
  exact data.drop_min_length pos.toNat

/-- Reading back an exactly-covered middle segment. -/
theorem pySlice_exact (A v B : List Nat) :
    pySlice (A ++ v ++ B) (A.length : Int) ((A.length : Int) + (v.length : Int)) = v := by
  unfold pySlice sliceIdx
  have h1 : ¬ ((A.length : Int) + v.length < 0) := by omega
  have h2 : ¬ ((A.length : Int) < 0) := by omega
  rw [if_neg h1, if_neg h2]
  have h3 : ((A.length : Int) + (v.length : Int)).toNat = A.length + v.length := by omega
  have h4 : (A.length : Int).toNat = A.length := by omega
  rw [h3, h4]
  have h5 : min (A.length + v.length) (A ++ v ++ B).length = A.length + v.length := by
    simp only [List.length_append]; omega
  have h6 : min A.length (A ++ v ++ B).length = A.length := by
    simp only [List.length_append]; omega
  rw [h5, h6]
  have h7 : (A ++ v ++ B).take (A.length + v.length) = A ++ v := by
    have := List.take_left (A ++ v) B
    simpa [List.length_append] using this
  rw [h7, List.drop_left]

/-- Slice assignment inside the buffer (`0 ≤ pos ≤ len`): the packed
bytes replace the range `[pos, pos+L)`, extending the buffer when the
range sticks out past the end. -/
theorem pySliceAssign_inside (data v : List Nat) (pos : Int) (h0 : 0 ≤ pos)
    (h1 : pos ≤ (data.length : Int)) :
    pySliceAssign data pos (pos + (v.length : Int)) v =
      data.take pos.toNat ++ v ++ data.drop (pos.toNat + v.length) := by
  unfold pySliceAssign sliceIdx
  have h2 : ¬ pos < 0 := by omega
  have h3 : ¬ pos + (v.length : Int) < 0 := by omega
  have h4 : min pos.toNat data.length = pos.toNat := by omega
  have h5 : (pos + (v.length : Int)).toNat = pos.toNat + v.length := by omega
  have h6 : max pos.toNat (min (pos.toNat + v.length) data.length) =
      min (pos.toNat + v.length) data.length := by omega
  simp only [if_neg h2, if_neg h3, h4, h5, h6, data.drop_min_length]

/-- Slice assignment at a position strictly past the end of the buffer:
the clamped range is the empty range at the end, so the bytes are
appended with no gap. -/
theorem pySliceAssign_append (data v : List Nat) (pos : Int)
    (h : (data.length : Int) < pos) :
    pySliceAssign data pos (pos + (v.length : Int)) v = data ++ v := by
  unfold pySliceAssign sliceIdx
  have h2 : ¬ pos < 0 := by omega
  have h3 : ¬ pos + (v.length : Int) < 0 := by omega
  have h4 : min pos.toNat data.length = data.length := by omega
  have h5 : min (pos + (v.length : Int)).toNat data.length = data.length := by omega
  simp only [if_neg h2, if_neg h3, h4, h5, max_self, List.take_length, List.drop_length,
    List.append_nil]

theorem utf8EncodeChar_length_pos (n : Nat) : 0 < (utf8EncodeChar n).length := by
  unfold utf8EncodeChar
  split
  · simp
  · split
    · simp
    · split <;> simp

theorem utf8Encode_cons (c : Char) (cs : List Char) :
    utf8Encode (c :: cs) = utf8EncodeChar c.toNat ++ utf8Encode cs := by
  simp [utf8Encode]

/-- Decoding an encoded scalar value at the head of a byte stream peels
off exactly that character. -/
theorem utf8Decode_encodeChar (n : Nat)
    (hv : n < 0xD800 ∨ (0xDFFF < n ∧ n < 0x110000)) (rest : List Nat) :
    utf8Decode (utf8EncodeChar n ++ rest) =
      (utf8Decode rest).map (List.cons (Char.ofNat n)) := by
  unfold utf8EncodeChar
  by_cases h1 : n < 0x80
  · rw [if_pos h1]
    rcases rest with _ | ⟨r1, _ | ⟨r2, _ | ⟨r3, t⟩⟩⟩ <;>
      simp only [List.cons_append, List.nil_append] <;>
      (conv_lhs => rw [utf8Decode]) <;>
      rw [if_pos h1]
  · rw [if_neg h1]
    by_cases h2 : n < 0x800
    · rw [if_pos h2]
      have c1 : ¬ (0xC0 + n / 64 < 0x80) := by omega
      have c2 : ¬ (0xC0 + n / 64 < 0xC2) := by omega
      have c3 : 0xC0 + n / 64 < 0xE0 := by omega
      have c4 : utf8Cont (0x80 + n % 64) := by unfold utf8Cont; omega
      have c5 : utf8Val2 (0xC0 + n / 64) (0x80 + n % 64) = n := by unfold utf8Val2; omega
      rcases rest with _ | ⟨r1, _ | ⟨r2, t⟩⟩ <;>
        simp only [List.cons_append, List.nil_append] <;>
        (conv_lhs => rw [utf8Decode]) <;>
        rw [if_neg c1, if_neg c2, if_pos c3, if_pos c4, c5]
    · rw [if_neg h2]
      by_cases h3 : n < 0x10000
      · rw [if_pos h3]
        have c1 : ¬ (0xE0 + n / 4096 < 0x80) := by omega
        have c2 : ¬ (0xE0 + n / 4096 < 0xC2) := by omega
        have c3 : ¬ (0xE0 + n / 4096 < 0xE0) := by omega
        have c4 : 0xE0 + n / 4096 < 0xF0 := by omega
        have c5 : utf8Cond3 (0xE0 + n / 4096) (0x80 + n / 64 % 64) (0x80 + n % 64) := by
          unfold utf8Cond3 utf8Cont
          refine ⟨by omega, by omega, ?_, ?_⟩ <;> intro h <;> omega
        have c6 : utf8Val3 (0xE0 + n / 4096) (0x80 + n / 64 % 64) (0x80 + n % 64) = n := by
          unfold utf8Val3; omega
        rcases rest with _ | ⟨r1, t⟩ <;>
          simp only [List.cons_append, List.nil_append] <;>
          (conv_lhs => rw [utf8Decode]) <;>
          rw [if_neg c1, if_neg c2, if_neg c3, if_pos c4, if_pos c5, c6]
      · rw [if_neg h3]
        have h4 : n < 0x110000 := by omega
        have c1 : ¬ (0xF0 + n / 262144 < 0x80) := by omega
        have c2 : ¬ (0xF0 + n / 262144 < 0xC2) := by omega
        have c3 : ¬ (0xF0 + n / 262144 < 0xE0) := by omega
        have c4 : ¬ (0xF0 + n / 262144 < 0xF0) := by omega
        have c5 : 0xF0 + n / 262144 < 0xF5 := by omega
        have c6 : utf8Cond4 (0xF0 + n / 262144) (0x80 + n / 4096 % 64)
            (0x80 + n / 64 % 64) (0x80 + n % 64) := by
          unfold utf8Cond4 utf8Cont
          refine ⟨by omega, by omega, by omega, ?_, ?_⟩ <;> intro h <;> omega
        have c7 : utf8Val4 (0xF0 + n / 262144) (0x80 + n / 4096 % 64)
            (0x80 + n / 64 % 64) (0x80 + n % 64) = n := by
          unfold utf8Val4; omega
        simp only [List.cons_append, List.nil_append]
        conv_lhs => rw [utf8Decode]
        rw [if_neg c1, if_neg c2, if_neg c3, if_neg c4, if_pos c5, if_pos c6, c7]

/-- Strict UTF-8 decoding is a left inverse of encoding (as in CPython:
`s.encode('utf-8').decode('utf-8') == s`). -/
theorem utf8Decode_encode (s : List Char) : utf8Decode (utf8Encode s) = some s := by
  induction s with
  | nil => rfl
  | cons c cs ih =>
      have hv : c.toNat < 0xD800 ∨ (0xDFFF < c.toNat ∧ c.toNat < 0x110000) := c.valid
      rw [utf8Encode_cons, utf8Decode_encodeChar c.toNat hv, ih, Option.map_some',
        Char.ofNat_toNat]

theorem utf8Encode_ascii (s : List Char) (h : ∀ c ∈ s, c.toNat < 0x80) :
    utf8Encode s = s.map Char.toNat := by
  induction s with
  | nil => rfl
  | cons c cs ih =>
      rw [utf8Encode_cons, ih (fun c hc => h c (List.mem_cons_of_mem _ hc))]
      have hc : c.toNat < 0x80 := h c (List.mem_cons_self c cs)
      rw [utf8EncodeChar, if_pos hc]
      rfl

theorem utf8Decode_ascii (l : List Nat) (h : ∀ b ∈ l, b < 0x80) :
    utf8Decode l = some (l.map Char.ofNat) := by
  induction l with
  | nil => rfl
  | cons b bs ih =>
      have hb : b < 0x80 := h b (List.mem_cons_self b bs)
      have ih' := ih (fun x hx => h x (List.mem_cons_of_mem _ hx))
      rcases bs with _ | ⟨r1, _ | ⟨r2, _ | ⟨r3, t⟩⟩⟩ <;>
        (conv_lhs => rw [utf8Decode]) <;>
        rw [if_pos hb, ih'] <;> rfl

theorem map_ofNat_toNat (s : List Char) : (s.map Char.toNat).map Char.ofNat = s := by
  induction s with
  | nil => rfl
  | cons c cs ih => simp [ih, Char.ofNat_toNat]

theorem getD_replicate_of_lt {α} (a d : α) (n i : Nat) (h : i < n) :
    (List.replicate n a).getD i d = a := by
  simp [List.getD, List.getElem?_replicate, h]

/-! ### Claim theorems -/

/-- C1, counterexample: the input consisting of the single tag byte
`17 + 1 = 18` followed by the raw byte `1`, decompressed with
`expected_output_length = 1`, does not return that byte: the C routine
rejects the stream as truncated (`-4`) with zero bytes written, and the
Python wrapper consequently returns the untouched zero buffer `[0]`,
not `[1]`. -/
theorem lzo_initial_literal_only_cex :
    LZO.lzo1x_decompress_safe [18, 1] 1 ≠ some [1] ∧
    lzo1x_decompress_safe_c [18, 1] 1 = (-4, []) := by decide

/-- C1 (amended): for every byte count `N < 4` and every sequence of `N`
raw bytes, the input `(17+N) :: bytes` with `expected_output_length = N`
is rejected by the C routine with zero output bytes — input-overrun `-4`
for `1 ≤ N < 4` (the routine requires at least one further tag byte
after the initial literal run) and stream-not-terminated `-7` for
`N = 0` (tag 17 is not above 17, so it is read as an ordinary match tag
and the input ends) — and the Python wrapper, which discards the return
code, returns the zero-filled buffer of length `N` instead of the raw
bytes. -/
theorem lzo_initial_literal_only_truncated (bs : List Nat) (h : bs.length < 4) :
    lzo1x_decompress_safe_c ((17 + bs.length) :: bs) bs.length =
      ((if bs.length = 0 then -7 else -4 : Int), []) ∧
    LZO.lzo1x_decompress_safe ((17 + bs.length) :: bs) bs.length =
      some (List.replicate bs.length 0) := by
  rcases bs with _ | ⟨a, _ | ⟨b, _ | ⟨c, _ | ⟨d, t⟩⟩⟩⟩
  · exact ⟨rfl, rfl⟩
  · exact ⟨rfl, rfl⟩
  · exact ⟨rfl, rfl⟩
  · exact ⟨rfl, rfl⟩
  · simp only [List.length_cons] at h; omega

/-- C1, witness for the amended theorem at the one-byte sequence `[1]`. -/
theorem lzo_initial_literal_only_truncated_witness :
    ([1] : List Nat).length < 4 ∧
    (lzo1x_decompress_safe_c ((17 + ([1] : List Nat).length) :: [1]) ([1] : List Nat).length =
        ((if ([1] : List Nat).length = 0 then -7 else -4 : Int), []) ∧
      LZO.lzo1x_decompress_safe ((17 + ([1] : List Nat).length) :: [1]) ([1] : List Nat).length =
        some (List.replicate ([1] : List Nat).length 0)) :=
  ⟨by decide, lzo_initial_literal_only_truncated [1] (by decide)⟩

/-- C2 (code bug): on the stream `[21,1,2,3,4,17,0,0]`, which describes
the four output bytes `[1,2,3,4]` (it succeeds with code 0 at
`expected_output_length = 4`), decompressing with
`expected_output_length = 3` makes the C routine return `OutputOverflow`
(`-5`) with zero bytes written — but the Python wrapper
`_lzo1x_decompress_safe_libs` discards that return code and returns the
untouched three-byte zero buffer as a success value instead of the
failure the claim (and the spec) require. -/
theorem lzo_output_overflow_swallowed_by_wrapper :
    lzo1x_decompress_safe_c [21, 1, 2, 3, 4, 17, 0, 0] 4 = (0, [1, 2, 3, 4]) ∧
    lzo1x_decompress_safe_c [21, 1, 2, 3, 4, 17, 0, 0] 3 = (-5, []) ∧
    LZO.lzo1x_decompress_safe [21, 1, 2, 3, 4, 17, 0, 0] 3 = some [0, 0, 0] := by decide

/-- C3 (confirmed): when more bytes are requested than remain past the
(non-negative) current position, the raw read advances the position by
exactly the number of bytes actually available, fires the short-read
error report (the `BufferUnderrun` failure of the spec), and still
returns the short span — the whole remainder of the buffer, reversed
for the little-endian orientation. -/
theorem read_raw_underrun (data : List Nat) (pos n sz : Int) (cp : PositionCheckpoint)
    (le : Bool) (h0 : 0 ≤ pos)
    (hn : ((data.length - pos.toNat : Nat) : Int) < n) :
    (ByteReaderBase.read_raw ⟨data, pos, sz, cp⟩ n le).st.pos =
        pos + ((data.length - pos.toNat : Nat) : Int) ∧
    (ByteReaderBase.read_raw ⟨data, pos, sz, cp⟩ n le).underRead = true ∧
    (ByteReaderBase.read_raw ⟨data, pos, sz, cp⟩ n le).value =
      (if le then (data.drop pos.toNat).reverse else data.drop pos.toNat) := by
  have hall : pySlice data pos (pos + n) = data.drop pos.toNat :=
    pySlice_all data pos n h0 (by omega)
  unfold ByteReaderBase.read_raw
  refine ⟨?_, ?_, ?_⟩
  · simp only [hall, List.length_drop]
  · simp only [hall, List.length_drop, decide_eq_true_eq]
    exact hn
  · simp only [hall]

/-- C3, witness: reading 5 bytes at position 1 of a 3-byte buffer. -/
theorem read_raw_underrun_witness :
    ((0 : Int) ≤ 1 ∧ ((([1, 2, 3] : List Nat).length - (1 : Int).toNat : Nat) : Int) < 5) ∧
    ((ByteReaderBase.read_raw ⟨[1, 2, 3], 1, 3, ⟨none, none⟩⟩ 5 true).st.pos =
        1 + ((([1, 2, 3] : List Nat).length - (1 : Int).toNat : Nat) : Int) ∧
      (ByteReaderBase.read_raw ⟨[1, 2, 3], 1, 3, ⟨none, none⟩⟩ 5 true).underRead = true ∧
      (ByteReaderBase.read_raw ⟨[1, 2, 3], 1, 3, ⟨none, none⟩⟩ 5 true).value =
        (if true then (([1, 2, 3] : List Nat).drop (1 : Int).toNat).reverse
         else ([1, 2, 3] : List Nat).drop (1 : Int).toNat)) :=
  ⟨⟨by decide, by decide⟩,
    read_raw_underrun [1, 2, 3] 1 5 3 ⟨none, none⟩ true (by decide) (by decide)⟩

/-- C7, counterexample: closing a checkpoint on a freshly constructed
cursor — no checkpoint was ever opened — evaluates `self.pos - None`,
which raises an unchecked `TypeError` (the `Except.error` case of the
model) rather than yielding a value or an explicit failure. -/
theorem pop_checkpoint_fresh_raises_cex :
    ByteReaderBase.pop_position_checkpoint (freshReader []) = .error () := rfl

/-- C7 (amended): closing a checkpoint when none was ever opened raises
an unchecked `TypeError`; in every other state — whenever some
checkpoint has been opened, so the slot's start is set — closing is
total and yields the measured checkpoint. -/
theorem pop_checkpoint_total_after_open (st : ByteReaderState) (p : Int)
    (h : st.cp.pos = some p) :
    ByteReaderBase.pop_position_checkpoint st =
      .ok ({ st with cp := ⟨some p, some (st.pos - p)⟩ }, ⟨some p, some (st.pos - p)⟩) := by
  unfold ByteReaderBase.pop_position_checkpoint
  rw [h]

/-- C7, witness: push then pop on a fresh cursor yields a checkpoint. -/
theorem pop_checkpoint_total_after_open_witness :
    (ByteReaderBase.push_position_checkpoint (freshReader [])).cp.pos = some 0 ∧
    ByteReaderBase.pop_position_checkpoint
        (ByteReaderBase.push_position_checkpoint (freshReader [])) =
      .ok ({ ByteReaderBase.push_position_checkpoint (freshReader []) with
              cp := ⟨some 0, some ((ByteReaderBase.push_position_checkpoint
                (freshReader [])).pos - 0)⟩ },
           ⟨some 0, some ((ByteReaderBase.push_position_checkpoint (freshReader [])).pos - 0)⟩) :=
  ⟨rfl, pop_checkpoint_total_after_open _ 0 rfl⟩

/-- C8, counterexample: the claim's criterion — valid iff
`start_offset ≥ 0` and `length ≥ 0` — fails at the checkpoint with
`start_offset = 0` and `length = 0`: the code additionally requires
`length > 0` (and `start_offset ≤ length`), so this checkpoint is
invalid while the claim calls it valid. -/
theorem checkpoint_valid_zero_cex :
    ¬ ((PositionCheckpoint.valid ⟨some 0, some 0⟩ = true) ↔
        ((0 : Int) ≤ 0 ∧ (0 : Int) ≤ 0)) := by decide

/-- C8 (amended): a checkpoint is valid iff both fields are set and
`0 ≤ start_offset ≤ length` with `length > 0`; in particular a
zero-length checkpoint, or one with length smaller than start_offset,
is invalid. -/
theorem checkpoint_valid_iff (cp : PositionCheckpoint) :
    cp.valid = true ↔
      ∃ p s : Int, cp.pos = some p ∧ cp.size = some s ∧ 0 ≤ p ∧ p ≤ s ∧ 0 < s := by
  rcases cp with ⟨_ | p, _ | s⟩ <;>
    simp [PositionCheckpoint.valid]

/-- C9, counterexample: at the reachable state with buffer `[10]`,
position 2 (past the end) and recorded size 6, a successful fixed-width
write of one byte appends at the end and advances the position to 3,
but leaves the recorded size at `max 6 3 = 6`, not at
`position + bytes_written = 3` as the claim states. -/
theorem write_past_end_size_cex :
    ByteReaderBase.write_uint8 ⟨[10], 2, 6, ⟨none, none⟩⟩ 7 =
      some (1, ⟨[10, 7], 3, 6, ⟨none, none⟩⟩) ∧ (6 : Int) ≠ 2 + 1 := by decide

/-- C9 (amended): for every cursor whose position strictly exceeds the
buffer length, a successful fixed-width write stores the packed bytes
starting at the current end of the buffer with no gap bytes, reports all
of them written, sets the position to `pos + bytes_written`, and sets
the recorded size to `max old_size (pos + bytes_written)` — which equals
`pos + bytes_written` whenever the old recorded size does not exceed it
(in particular when it equals the buffer length) — so the recorded size
always ends up exceeding the actual buffer length. -/
theorem write_past_end (st : ByteReaderState) (packed : List Nat)
    (hpos : (st.data.length : Int) < st.pos) (hne : packed ≠ []) :
    (ByteReaderBase.writePacked st packed).1 = packed.length ∧
    (ByteReaderBase.writePacked st packed).2.data = st.data ++ packed ∧
    (ByteReaderBase.writePacked st packed).2.pos = st.pos + packed.length ∧
    (ByteReaderBase.writePacked st packed).2.size =
      max st.size (st.pos + packed.length) ∧
    ((ByteReaderBase.writePacked st packed).2.data.length : Int) <
      (ByteReaderBase.writePacked st packed).2.size := by
  have hL : packed.length ≠ 0 := fun hz => hne (List.length_eq_zero.mp hz)
  have hass := pySliceAssign_append st.data packed st.pos hpos
  unfold ByteReaderBase.writePacked
  refine ⟨?_, ?_, ?_, ?_, ?_⟩
  · simp only [if_pos hL]
  · simp only [if_pos hL, hass]
  · simp only [if_pos hL]
  · simp only [if_pos hL]
    rw [max_def]
    split_ifs <;> omega
  · simp only [if_pos hL, hass, List.length_append]
    split_ifs <;> omega

/-- C9, witness: a one-byte write at position 1 of an empty buffer. -/
theorem write_past_end_witness :
    (((([] : List Nat).length : Int) < 1) ∧ ([5] : List Nat) ≠ []) ∧
    ((ByteReaderBase.writePacked ⟨[], 1, 0, ⟨none, none⟩⟩ [5]).1 = ([5] : List Nat).length ∧
      (ByteReaderBase.writePacked ⟨[], 1, 0, ⟨none, none⟩⟩ [5]).2.data = [] ++ [5] ∧
      (ByteReaderBase.writePacked ⟨[], 1, 0, ⟨none, none⟩⟩ [5]).2.pos =
        1 + (([5] : List Nat).length : Int) ∧
      (ByteReaderBase.writePacked ⟨[], 1, 0, ⟨none, none⟩⟩ [5]).2.size =
        max 0 (1 + (([5] : List Nat).length : Int)) ∧
      (((ByteReaderBase.writePacked ⟨[], 1, 0, ⟨none, none⟩⟩ [5]).2.data.length : Int) <
        (ByteReaderBase.writePacked ⟨[], 1, 0, ⟨none, none⟩⟩ [5]).2.size)) :=
  ⟨⟨by decide, by decide⟩,
    write_past_end ⟨[], 1, 0, ⟨none, none⟩⟩ [5] (by decide) (by decide)⟩

/-- C10 (confirmed): a raw read with a negative byte count is not
rejected: with buffer `[1..10]`, position 2 and count `-9` (so
`pos + n = -7 < 0`), Python's slice normalisation counts the end index
from the buffer's end and yields the non-empty span `[3]`; the read
returns it (reversed, little-endian orientation), advances the position
forward by its length, and reports no underrun failure. -/
theorem read_raw_negative_count_not_rejected :
    ∃ (data : List Nat) (pos n : Int),
      0 ≤ pos ∧ pos < (data.length : Int) ∧ pos + n < 0 ∧ n < 0 ∧
      (ByteReaderBase.read_raw ⟨data, pos, (data.length : Int), ⟨none, none⟩⟩ n true).value ≠ [] ∧
      (ByteReaderBase.read_raw ⟨data, pos, (data.length : Int), ⟨none, none⟩⟩
          n true).value.reverse = pySlice data pos (pos + n) ∧
      (ByteReaderBase.read_raw ⟨data, pos, (data.length : Int), ⟨none, none⟩⟩ n true).st.pos =
        pos + ((ByteReaderBase.read_raw ⟨data, pos, (data.length : Int), ⟨none, none⟩⟩
          n true).value.length : Int) ∧
      (ByteReaderBase.read_raw ⟨data, pos, (data.length : Int), ⟨none, none⟩⟩
          n true).underRead = false := by
  refine ⟨[1, 2, 3, 4, 5, 6, 7, 8, 9, 10], 2, -9, ?_⟩
  decide

/-- C4, counterexample: writing the non-ASCII string `"é"` with the
little-endian setting stores the reversed UTF-8 bytes `[0xA9, 0xC3]`;
reading back 2 bytes with the same setting tries to UTF-8-decode the
reversed bytes (the decode happens before the character-order
reversal), hits malformed UTF-8 and fails with the `False` sentinel
instead of returning `"é"`. -/
theorem write_read_string_little_nonascii_cex :
    (ByteReaderBase.write_string (freshReader []) ['é'] true).1 = 2 ∧
    (ByteReaderBase.read_string
        { (ByteReaderBase.write_string (freshReader []) ['é'] true).2 with pos := 0 }
        2 true).1 = none ∧
    (ByteReaderBase.read_string
        { (ByteReaderBase.write_string (freshReader []) ['é'] true).2 with pos := 0 }
        2 true).1 ≠ some ['é'] := by decide

/-- C4 (amended): at any in-buffer position, writing a string reports
exactly its UTF-8 byte length written (0 for the empty string), and a
subsequent matching read returns the string back — for the big-endian
setting for every UTF-8 string, and for the little-endian setting
whenever the string is ASCII (for little-endian non-ASCII strings the
read fails, because the stored bytes are reversed before decoding). -/
theorem write_read_string_roundtrip (st : ByteReaderState) (s : List Char) (le : Bool)
    (h0 : 0 ≤ st.pos) (h1 : st.pos ≤ (st.data.length : Int))
    (hascii : le = true → ∀ c ∈ s, c.toNat < 0x80) :
    (ByteReaderBase.write_string st s le).1 = (utf8Encode s).length ∧
    (ByteReaderBase.read_string { (ByteReaderBase.write_string st s le).2 with pos := st.pos }
        (utf8Encode s).length le).1 = some s := by
  by_cases hs : s = []
  · subst hs
    have hempty : pySlice st.data st.pos st.pos = [] := by
      unfold pySlice
      exact List.drop_eq_nil_of_le (List.length_take_le _ _)
    constructor
    · rfl
    · unfold ByteReaderBase.write_string
      rw [if_pos rfl]
      unfold ByteReaderBase.read_string ByteReaderBase.read_bytes_s
      simp [show utf8Encode ([] : List Char) = [] from rfl, hempty,
        show utf8Decode [] = some ([] : List Char) from rfl]
  · have hlen : 0 < (utf8Encode s).length := by
      rcases s with _ | ⟨c, cs⟩
      · exact absurd rfl hs
      · rw [utf8Encode_cons, List.length_append]
        have := utf8EncodeChar_length_pos c.toNat
        omega
    have hp : ((st.pos.toNat : Nat) : Int) = st.pos := Int.toNat_of_nonneg h0
    have hple : st.pos.toNat ≤ st.data.length := by omega
    have hA : (st.data.take st.pos.toNat).length = st.pos.toNat := by
      rw [List.length_take]; omega
    have key : ∀ enc' : List Nat, enc'.length = (utf8Encode s).length →
        (ByteReaderBase.writePacked st enc').1 = (utf8Encode s).length ∧
        pySlice (ByteReaderBase.writePacked st enc').2.data st.pos
          (st.pos + (((utf8Encode s).length : Nat) : Int)) = enc' := by
      intro enc' hlen'
      have hL : enc'.length ≠ 0 := by omega
      have hassign := pySliceAssign_inside st.data enc' st.pos h0 h1
      constructor
      · unfold ByteReaderBase.writePacked
        simp only [if_pos hL]
        exact hlen'
      · unfold ByteReaderBase.writePacked
        simp only [if_pos hL]
        rw [hassign]
        have hx := pySlice_exact (st.data.take st.pos.toNat) enc'
          (st.data.drop (st.pos.toNat + enc'.length))
        rw [hA, hp] at hx
        rw [← hlen']
        exact hx
    cases le with
    | false =>
        have hw : ByteReaderBase.write_string st s false =
            ByteReaderBase.writePacked st (utf8Encode s) := by
          unfold ByteReaderBase.write_string
          rw [if_neg hs]
          simp
        obtain ⟨k1, k2⟩ := key (utf8Encode s) rfl
        constructor
        · rw [hw]
          exact k1
        · rw [hw]
          unfold ByteReaderBase.read_string ByteReaderBase.read_bytes_s
          dsimp only
          rw [k2, if_pos rfl]
          dsimp only
          rw [utf8Decode_encode]
          rfl
    | true =>
        have hasc := hascii rfl
        have henc : utf8Encode s = s.map Char.toNat := utf8Encode_ascii s hasc
        have hw : ByteReaderBase.write_string st s true =
            ByteReaderBase.writePacked st (utf8Encode s).reverse := by
          unfold ByteReaderBase.write_string
          rw [if_neg hs]
          simp
        have hrevlen : (utf8Encode s).reverse.length = (utf8Encode s).length := by
          simp
        obtain ⟨k1, k2⟩ := key (utf8Encode s).reverse hrevlen
        have hdec : utf8Decode (utf8Encode s).reverse = some s.reverse := by
          rw [henc, ← List.map_reverse]
          rw [utf8Decode_ascii _ ?hmem]
          · rw [map_ofNat_toNat]
          case hmem =>
            intro b hb
            rw [List.mem_map] at hb
            obtain ⟨c, hc, hcb⟩ := hb
            rw [← hcb]
            exact hasc c (List.mem_reverse.mp hc)
        constructor
        · rw [hw]
          exact k1
        · rw [hw]
          unfold ByteReaderBase.read_string ByteReaderBase.read_bytes_s
          dsimp only
          rw [k2, if_pos hrevlen]
          dsimp only
          rw [hdec]
          simp [List.reverse_reverse]

/-- C4, witness: roundtrip of the ASCII string `"ab"` on a fresh
little-endian cursor. -/
theorem write_read_string_roundtrip_witness :
    ((0 : Int) ≤ (freshReader []).pos ∧
      (freshReader []).pos ≤ ((freshReader []).data.length : Int) ∧
      (true = true → ∀ c ∈ ['a', 'b'], c.toNat < 0x80)) ∧
    ((ByteReaderBase.write_string (freshReader []) ['a', 'b'] true).1 =
        (utf8Encode ['a', 'b']).length ∧
      (ByteReaderBase.read_string
          { (ByteReaderBase.write_string (freshReader []) ['a', 'b'] true).2 with
              pos := (freshReader []).pos }
          (utf8Encode ['a', 'b']).length true).1 = some ['a', 'b']) :=
  ⟨⟨by decide, by decide, by decide⟩,
    write_read_string_roundtrip (freshReader []) ['a', 'b'] true
      (by decide) (by decide) (by decide)⟩

/-- Evaluation of the lookback decoder on the reference word
`0xFFFFFFFF` (bytes `FF FF FF FF`, read little-endian) with the
session-first marker already consumed: the word is read unsigned, so the
`inp == -1` branch never fires; the masked index `0x3FFFFFFF` falls into
the generic back-reference lookup, which returns the empty string iff
index `0x3FFFFFFE` is out of range and the stored entry otherwise.  The
table is never modified on this path. -/
theorem lookback_ffffffff_eval (tbl : List (Option (List Char))) :
    ByteReader.read_string_lookback ⟨freshReader [255, 255, 255, 255], true, tbl⟩ =
      (if tbl.length ≤ 1073741822 then some [] else tbl.getD 1073741822 none,
       ⟨{ freshReader [255, 255, 255, 255] with pos := 4 }, true, tbl⟩) := by
  have hu : ByteReaderBase.read_uint32 (freshReader [255, 255, 255, 255]) =
      (some 4294967295, { freshReader [255, 255, 255, 255] with pos := 4 }) := by decide
  unfold ByteReader.read_string_lookback
  dsimp only
  rw [if_pos rfl]
  rw [hu]
  dsimp only
  rw [if_neg (by decide), if_neg (by decide), if_neg (by decide), if_neg (by decide)]
  have hmask : (4294967295 : Nat) &&& 0x3fffffff = 1073741823 := by decide
  rw [hmask, show (1073741823 - 1 : Nat) = 1073741822 from rfl]
  split_ifs <;> rfl

/-- C5, counterexample: with a table of `0x3FFFFFFF` stored entries, the
reference word `0xFFFFFFFF` does not return the empty string: because
the word is compared unsigned (the `inp == -1` branch is dead), it is
treated as back-reference index `0x3FFFFFFF` and returns the table entry
at index `0x3FFFFFFE` — here `"x"` — contradicting the claim's
"for every state of the table". -/
theorem lookback_ffffffff_huge_table_cex :
    (ByteReader.read_string_lookback
        ⟨freshReader [255, 255, 255, 255], true,
          List.replicate 1073741823 (some ['x'])⟩).1 = some ['x'] ∧
    some ['x'] ≠ some ([] : List Char) := by
  constructor
  · rw [lookback_ffffffff_eval]
    dsimp only
    rw [if_neg (by rw [List.length_replicate]; omega)]
    exact getD_replicate_of_lt _ _ _ _ (by omega)
  · decide

/-- C5 (amended): for every lookback table with fewer than `0x3FFFFFFF`
entries (every table a real decoding session can produce), decoding the
reference word `0xFFFFFFFF` returns the empty string and leaves the
table unmodified — via the out-of-range back-reference fallback, not via
the dead signed `-1` comparison. -/
theorem lookback_ffffffff_returns_empty (tbl : List (Option (List Char)))
    (h : tbl.length ≤ 1073741822) :
    (ByteReader.read_string_lookback
        ⟨freshReader [255, 255, 255, 255], true, tbl⟩).1 = some [] ∧
    (ByteReader.read_string_lookback
        ⟨freshReader [255, 255, 255, 255], true, tbl⟩).2.storedStrings = tbl := by
  rw [lookback_ffffffff_eval]
  exact ⟨by dsimp only; rw [if_pos h], rfl⟩

/-- C5, witness: the empty table. -/
theorem lookback_ffffffff_returns_empty_witness :
    ([] : List (Option (List Char))).length ≤ 1073741822 ∧
    ((ByteReader.read_string_lookback
        ⟨freshReader [255, 255, 255, 255], true, []⟩).1 = some [] ∧
      (ByteReader.read_string_lookback
        ⟨freshReader [255, 255, 255, 255], true, []⟩).2.storedStrings = []) :=
  ⟨by decide, lookback_ffffffff_returns_empty [] (by decide)⟩

/-- C6, counterexample: with the inline-introduction word `0x00000000`
followed by nothing, the inner length-prefixed string read fails
(`BufferUnderrun` on the length word), and `read_string_lookback` does
not abort cleanly: it appends the `False` sentinel (`none`) to the
lookback table as if it were a decoded string, and returns it. -/
theorem lookback_inline_failure_cex :
    (ByteReader.read_string_lookback ⟨freshReader [0, 0, 0, 0], true, []⟩).1 = none ∧
    (ByteReader.read_string_lookback ⟨freshReader [0, 0, 0, 0], true, []⟩).2.storedStrings =
      [none] := by decide

/-- C6 (amended): when the inline-introduction path's underlying string
read fails, the failure is visible to the caller only as the returned
`False` sentinel (`none`), and that sentinel is additionally appended to
the lookback table in place of a decoded string — so later
back-references to that index yield the sentinel. -/
theorem lookback_inline_failure_appends_sentinel (st : LookbackState)
    (h1 : st.seenLookback = true)
    (hw : (ByteReaderBase.read_uint32 st.base).1 = some 0)
    (hs : (ByteReader.read_string_auto (ByteReaderBase.read_uint32 st.base).2).1 = none) :
    (ByteReader.read_string_lookback st).1 = none ∧
    (ByteReader.read_string_lookback st).2.storedStrings = st.storedStrings ++ [none] := by
  unfold ByteReader.read_string_lookback
  rw [h1]
  rw [if_pos rfl]
  dsimp only
  rcases hu : ByteReaderBase.read_uint32 st.base with ⟨v, b'⟩
  rw [hu] at hw hs
  dsimp only at hw hs
  subst hw
  rcases hra : ByteReader.read_string_auto b' with ⟨sv, b''⟩
  rw [hra] at hs
  dsimp only at hs
  subst hs
  dsimp only
  rw [if_neg (by decide), if_pos rfl, hra]
  exact ⟨rfl, rfl⟩

/-- C6, witness: the concrete four-zero-byte buffer. -/
theorem lookback_inline_failure_appends_sentinel_witness :
    ((⟨freshReader [0, 0, 0, 0], true, []⟩ : LookbackState).seenLookback = true ∧
      (ByteReaderBase.read_uint32
          (⟨freshReader [0, 0, 0, 0], true, []⟩ : LookbackState).base).1 = some 0 ∧
      (ByteReader.read_string_auto (ByteReaderBase.read_uint32
          (⟨freshReader [0, 0, 0, 0], true, []⟩ : LookbackState).base).2).1 = none) ∧
    ((ByteReader.read_string_lookback ⟨freshReader [0, 0, 0, 0], true, []⟩).1 = none ∧
      (ByteReader.read_string_lookback ⟨freshReader [0, 0, 0, 0], true, []⟩).2.storedStrings =
        (⟨freshReader [0, 0, 0, 0], true, []⟩ : LookbackState).storedStrings ++ [none]) :=
  ⟨⟨rfl, by decide, by decide⟩,
    lookback_inline_failure_appends_sentinel ⟨freshReader [0, 0, 0, 0], true, []⟩
      rfl (by decide) (by decide)⟩
